import Mathlib

/-!
Verification of the signal-generation engine of `scripts/build_signals.py`.

The program is embedded shallowly:

* pandas numeric series over a price frame become Lean `List ℚ`
  (the float values of the program are modelled as rationals);
* a missing value (`NaN`) becomes `none` in `List (Option ℚ)` — the
  program's data has no `NaN` after `dropna()`, and `NaN`s only arise
  from indicator lookback windows and from `rsi`'s `replace(0, np.nan)`,
  exactly the places modelled with `Option`;
* a data frame row becomes a `Bar` record (date is a day number,
  with day 0 a Thursday, so that pandas' `W-FRI` weekly buckets are the
  classes of `weekOf`);
* Python `f"{x:.2f}"` rounding becomes exact round-half-to-even on ℚ
  (`round2`);
* `iloc[-1]` becomes `List.getLast?`; the program never calls the
  functions below on an empty frame (it requires 210 bars), so the
  `none` result of `getLast?` on `[]` is unreachable on real inputs.

Definitions follow the source line by line; theorems settle the frozen
claims about the spec.
-/

set_option maxRecDepth 40000

/-- One row of the price frame: `{date, open, high, low, close, volume}`.
`date` is a day number (day 0 = 1970-01-01, a Thursday). -/
structure Bar where
  date : ℕ
  open_ : ℚ
  high : ℚ
  low : ℚ
  close : ℚ
  volume : ℚ
deriving DecidableEq

/-- Exponential weighted mean, `adjust=False`: the tail of the output,
given the running value `y`. -/
def ewmGo (a : ℚ) (y : ℚ) : List ℚ → List ℚ
  | [] => []
  | x :: xs => ((1 - a) * y + a * x) :: ewmGo a ((1 - a) * y + a * x) xs

/-- `s.ewm(alpha=a, adjust=False).mean()`: seeded from the first value,
then `y_t = (1-a)*y_(t-1) + a*x_t`. -/
def ewmAlpha (a : ℚ) : List ℚ → List ℚ
  | [] => []
  | x :: xs => x :: ewmGo a x xs

/-- `ema(s, n) = s.ewm(span=n, adjust=False).mean()`, smoothing 2/(n+1). -/
def ema (s : List ℚ) (n : ℕ) : List ℚ := ewmAlpha (2 / (n + 1)) s

/-- `s.rolling(n).mean()`: first `n-1` outputs missing, then the window
mean.  (pandas raises on `n = 0`; that case is mapped to all-missing.) -/
def rollingMean (s : List ℚ) (n : ℕ) : List (Option ℚ) :=
  (List.range s.length).map fun i =>
    if n ≤ i + 1 ∧ 1 ≤ n then some (((s.take (i + 1)).drop (i + 1 - n)).sum / n)
    else none

/-- `sma(s, n) = s.rolling(n).mean()`. -/
def sma (s : List ℚ) (n : ℕ) : List (Option ℚ) := rollingMean s n

/-- Tail of `series.diff()`, given the previous value. -/
def diffGo (p : ℚ) : List ℚ → List (Option ℚ)
  | [] => []
  | x :: xs => some (x - p) :: diffGo x xs

/-- `series.diff()`: first output missing. -/
def diffO : List ℚ → List (Option ℚ)
  | [] => []
  | x :: xs => none :: diffGo x xs

/-- `np.where(d > 0, d, 0.0)`: a missing diff compares false, giving 0. -/
def gainPart (d : Option ℚ) : ℚ :=
  match d with
  | none => 0
  | some x => if 0 < x then x else 0

/-- `np.where(d < 0, -d, 0.0)`: a missing diff compares false, giving 0. -/
def lossPart (d : Option ℚ) : ℚ :=
  match d with
  | none => 0
  | some x => if x < 0 then -x else 0

/-- `rsi(series, n)`: Wilder smoothing with alpha `1/n`; the smoothed
loss is sent through `replace(0, np.nan)`, so positions with zero
average loss are missing, and elsewhere `rsi = 100 - 100/(1 + ru/rd)`. -/
def rsi (series : List ℚ) (n : ℕ) : List (Option ℚ) :=
  let d := diffO series
  let up := d.map gainPart
  let dn := d.map lossPart
  let ru := ewmAlpha (1 / n) up
  let rd := (ewmAlpha (1 / n) dn).map fun x => if x = 0 then none else some x
  List.zipWith (fun g l => l.map fun lv => 100 - 100 / (1 + g / lv)) ru rd

/-- Tail of the true-range series, given the previous close. -/
def trGo (pc : ℚ) : List Bar → List ℚ
  | [] => []
  | b :: bs => max (b.high - b.low) (max |b.high - pc| |b.low - pc|) :: trGo b.close bs

/-- True range per bar: `max(high-low, |high-prev_close|, |low-prev_close|)`;
the first bar has no previous close, so its true range is `high - low`
(pandas `max(axis=1)` skips the two `NaN` columns there). -/
def trueRange : List Bar → List ℚ
  | [] => []
  | b :: bs => (b.high - b.low) :: trGo b.close bs

/-- `atr(df, n)`: rolling mean of the true range over window `n`. -/
def atr (df : List Bar) (n : ℕ) : List (Option ℚ) := rollingMean (trueRange df) n

/-- Round half to even to an integer (the rounding of Python's
`f"{x:.2f}"` string formatting, on exact values). -/
def rhe (q : ℚ) : ℤ :=
  if Int.fract q < 1 / 2 then ⌊q⌋
  else if 1 / 2 < Int.fract q then ⌊q⌋ + 1
  else if ⌊q⌋ % 2 = 0 then ⌊q⌋ else ⌊q⌋ + 1

/-- `round2(x) = float(f"{x:.2f}")`: round to 2 decimal places. -/
def round2 (x : ℚ) : ℚ := (rhe (100 * x) : ℚ) / 100

/-- `float(f"{x:.3f}")`: round to 3 decimal places (used for `_score`). -/
def round3 (x : ℚ) : ℚ := (rhe (1000 * x) : ℚ) / 1000

/-- `df['close']` as a list. -/
def closes (df : List Bar) : List ℚ := df.map Bar.close

/-- Last value of a plain numeric series (`iloc[-1]`). -/
def lastQ (l : List ℚ) : Option ℚ := l.getLast?

/-- Last value of a series with missing values: `some v` exactly when
the series is nonempty and its last value is present. -/
def lastOQ (l : List (Option ℚ)) : Option ℚ := l.getLast?.join

/-- Python `x > y` where either side may be `NaN`: any comparison with
a missing value is false. -/
def gtB (x y : Option ℚ) : Bool :=
  match x, y with
  | some a, some b => decide (b < a)
  | _, _ => false

/-! ### Configuration constants (source lines 20-45) -/

def UPTREND_RSI_MIN : ℚ := 50
def DOWNTREND_RSI_MAX : ℚ := 50
def MR_RSI2_MAX : ℚ := 10
def MR_RSI2_MIN : ℚ := 90
def MR_TREND_MA : ℕ := 200
def LT_SMA_WEEKS : ℕ := 40
def LT_RSI_MIN : ℚ := 55
def LT_MIN_WEEKS : ℕ := 60
def RISK_MULT : ℚ := 1
def REWARD_MULT : ℚ := 9 / 5
def LT_STOP_ATR_MULT : ℚ := 2
def LT_TARGET_ATR_MULT : ℚ := 4
def MIN_PRICE : ℚ := 5
def MIN_DOLLAR_VOL : ℚ := 10000000
def MAX_SHORT_IDEAS : ℕ := 12
def MAX_LONG_IDEAS : ℕ := 8

/-- The epsilon that floors every reward/risk denominator (`1e-6`). -/
def epsRR : ℚ := 1 / 1000000

/-! ### Candidate plan (source `plan_dict`, lines 132-144) -/

/-- A candidate plan dict.  The `_score` key is the `score` field. -/
structure Plan where
  strategy : String
  active : Bool
  entry : ℚ
  stop : ℚ
  target : ℚ
  rr : ℚ
  reason : String
  direction : String
  horizon : String
  score : ℚ
deriving DecidableEq

/-- `plan_dict` applies the output rounding: entry/stop/target to 2
decimals, `rr` to 2 decimals, `_score` to 3 decimals.  The strategies
below build the unrounded `Plan` and are composed with this. -/
def plan_dict (p : Plan) : Plan :=
  { p with
    entry := round2 p.entry
    stop := round2 p.stop
    target := round2 p.target
    rr := round2 p.rr
    score := round3 p.score }

/-! ### Quality scorers (source lines 146-160) -/

/-- `quality_long(d)`: +1 for close above sma200, +1 for ema20 above
ema50, plus `(rsi14-50)/50`, floored at 0.  When `rsi14` is missing the
accumulated sum is `NaN` and CPython's `max(0.0, nan)` returns `0.0`. -/
def quality_long (d : List Bar) : ℚ :=
  let cl := closes d
  let pts1 : ℚ := if gtB (lastQ cl) (lastOQ (sma cl 200)) then 1 else 0
  let pts2 : ℚ := if gtB (lastQ (ema cl 20)) (lastQ (ema cl 50)) then 1 else 0
  match lastOQ (rsi cl 14) with
  | none => 0
  | some r => max 0 (pts1 + pts2 + (r - 50) / 50)

/-- `quality_short(d)`: the mirror image of `quality_long`. -/
def quality_short (d : List Bar) : ℚ :=
  let cl := closes d
  let pts1 : ℚ := if gtB (lastOQ (sma cl 200)) (lastQ cl) then 1 else 0
  let pts2 : ℚ := if gtB (lastQ (ema cl 50)) (lastQ (ema cl 20)) then 1 else 0
  match lastOQ (rsi cl 14) with
  | none => 0
  | some r => max 0 (pts1 + pts2 + (50 - r) / 50)

/-! ### Short-term (daily) strategies (source lines 163-247) -/

/-- Builds the trend-pullback-long plan from the last high, the last
atr14 and the quality score (source lines 175-182). -/
def tplBuild (prior_high atr14 q : ℚ) : Plan :=
  let entry := prior_high + 5 / 100
  let stop := entry - RISK_MULT * atr14
  let target := entry + REWARD_MULT * atr14
  let rr := (target - entry) / max (entry - stop) epsRR
  { strategy := "TrendPullbackLong", active := true, entry := entry,
    stop := stop, target := target, rr := rr,
    reason := "Uptrend, breakout of prior high.", direction := "bullish",
    horizon := "short", score := rr * (1 + (1 / 2) * q) }

/-- `strat_trend_pullback_long` before the `plan_dict` rounding:
declines when any of ema5/ema20/ema50/sma200/rsi14/atr14 is missing at
the last bar, or when the admission `ema5 > ema20 and rsi14 >= 50`
fails. -/
def strat_trend_pullback_long_core (df : List Bar) : Option Plan :=
  match lastQ (ema (closes df) 5), lastQ (ema (closes df) 20), lastQ (ema (closes df) 50),
      lastOQ (sma (closes df) 200), lastOQ (rsi (closes df) 14), lastOQ (atr df 14) with
  | some ema5, some ema20, some _ema50, some _sma200, some rsi14, some atr14 =>
    if ema20 < ema5 ∧ UPTREND_RSI_MIN ≤ rsi14 then
      match (df.map Bar.high).getLast? with
      | some prior_high => some (tplBuild prior_high atr14 (quality_long df))
      | none => none
    else none
  | _, _, _, _, _, _ => none

/-- `strat_trend_pullback_long(df)` as emitted (with `plan_dict`). -/
def strat_trend_pullback_long (df : List Bar) : Option Plan :=
  (strat_trend_pullback_long_core df).map plan_dict

/-- Builds the trend-pullback-short plan (source lines 218-225). -/
def tpsBuild (prior_low atr14 q : ℚ) : Plan :=
  let entry := prior_low - 5 / 100
  let stop := entry + RISK_MULT * atr14
  let target := entry - REWARD_MULT * atr14
  let rr := (entry - target) / max (stop - entry) epsRR
  { strategy := "TrendPullbackShort", active := true, entry := entry,
    stop := stop, target := target, rr := rr,
    reason := "Downtrend, breakdown of prior low.", direction := "bearish",
    horizon := "short", score := rr * (1 + (1 / 2) * q) }

/-- `strat_trend_pullback_short` before rounding: admission
`ema5 < ema20 and rsi14 <= 50`. -/
def strat_trend_pullback_short_core (df : List Bar) : Option Plan :=
  match lastQ (ema (closes df) 5), lastQ (ema (closes df) 20), lastQ (ema (closes df) 50),
      lastOQ (sma (closes df) 200), lastOQ (rsi (closes df) 14), lastOQ (atr df 14) with
  | some ema5, some ema20, some _ema50, some _sma200, some rsi14, some atr14 =>
    if ema5 < ema20 ∧ rsi14 ≤ DOWNTREND_RSI_MAX then
      match (df.map Bar.low).getLast? with
      | some prior_low => some (tpsBuild prior_low atr14 (quality_short df))
      | none => none
    else none
  | _, _, _, _, _, _ => none

/-- `strat_trend_pullback_short(df)` as emitted. -/
def strat_trend_pullback_short (df : List Bar) : Option Plan :=
  (strat_trend_pullback_short_core df).map plan_dict

/-- The mean-reversion-long target expression (source line 199):
`last['sma5'] if not pd.isna(last['sma5']) else entry + REWARD_MULT*atr14`. -/
def mrLongTarget (sma5 : Option ℚ) (entry atr14 : ℚ) : ℚ :=
  match sma5 with
  | some v => v
  | none => entry + REWARD_MULT * atr14

/-- The mean-reversion-short target expression (source line 242). -/
def mrShortTarget (sma5 : Option ℚ) (entry atr14 : ℚ) : ℚ :=
  match sma5 with
  | some v => v
  | none => entry - REWARD_MULT * atr14

/-- Builds the mean-reversion-long plan (source lines 197-204). -/
def mrlBuild (close : ℚ) (sma5 : Option ℚ) (atr14 q : ℚ) : Plan :=
  let entry := close
  let stop := entry - RISK_MULT * atr14
  let target := mrLongTarget sma5 entry atr14
  let rr := (target - entry) / max (entry - stop) epsRR
  { strategy := "MeanReversionLong", active := true, entry := entry,
    stop := stop, target := target, rr := rr,
    reason := "RSI(2) oversold, snapback to 5SMA.", direction := "bullish",
    horizon := "short", score := rr * (1 + (1 / 2) * q) }

/-- Builds the mean-reversion-short plan (source lines 240-247). -/
def mrsBuild (close : ℚ) (sma5 : Option ℚ) (atr14 q : ℚ) : Plan :=
  let entry := close
  let stop := entry + RISK_MULT * atr14
  let target := mrShortTarget sma5 entry atr14
  let rr := (entry - target) / max (stop - entry) epsRR
  { strategy := "MeanReversionShort", active := true, entry := entry,
    stop := stop, target := target, rr := rr,
    reason := "RSI(2) overbought, drop to 5SMA.", direction := "bearish",
    horizon := "short", score := rr * (1 + (1 / 2) * q) }

/-- `strat_mean_reversion_long` before rounding: declines when any of
sma200/sma5/rsi2/atr14 is missing at the last bar, or when the
admission `close > sma200 and rsi2 < 10` fails. -/
def strat_mean_reversion_long_core (df : List Bar) : Option Plan :=
  match lastQ (closes df), lastOQ (sma (closes df) MR_TREND_MA),
      lastOQ (rsi (closes df) 2), lastOQ (atr df 14) with
  | some close, some sma200, some rsi2, some atr14 =>
    if (lastOQ (sma (closes df) 5)).isNone then none
    else if sma200 < close ∧ rsi2 < MR_RSI2_MAX then
      some (mrlBuild close (lastOQ (sma (closes df) 5)) atr14 (quality_long df))
    else none
  | _, _, _, _ => none

/-- `strat_mean_reversion_long(df)` as emitted. -/
def strat_mean_reversion_long (df : List Bar) : Option Plan :=
  (strat_mean_reversion_long_core df).map plan_dict

/-- `strat_mean_reversion_short` before rounding: admission
`close < sma200 and rsi2 > 90`. -/
def strat_mean_reversion_short_core (df : List Bar) : Option Plan :=
  match lastQ (closes df), lastOQ (sma (closes df) MR_TREND_MA),
      lastOQ (rsi (closes df) 2), lastOQ (atr df 14) with
  | some close, some sma200, some rsi2, some atr14 =>
    if (lastOQ (sma (closes df) 5)).isNone then none
    else if close < sma200 ∧ MR_RSI2_MIN < rsi2 then
      some (mrsBuild close (lastOQ (sma (closes df) 5)) atr14 (quality_short df))
    else none
  | _, _, _, _ => none

/-- `strat_mean_reversion_short(df)` as emitted. -/
def strat_mean_reversion_short (df : List Bar) : Option Plan :=
  (strat_mean_reversion_short_core df).map plan_dict

/-! ### Liquidity gate (source lines 92-99) -/

/-- `liquidity_ok(df)`: reject when the latest close is under
`MIN_PRICE`; pass when there is no volume column; otherwise require the
20-bar rolling mean of close*volume at the last bar to be present and
at least `MIN_DOLLAR_VOL`.  (`hasVolume` models `'volume' in df.columns`.) -/
def liquidity_ok (df : List Bar) (hasVolume : Bool) : Bool :=
  match lastQ (closes df) with
  | none => false
  | some last =>
    if last < MIN_PRICE then false
    else if ¬hasVolume then true
    else
      match lastOQ (rollingMean (df.map fun b => b.close * b.volume) 20) with
      | none => false
      | some dv20 => decide (MIN_DOLLAR_VOL ≤ dv20)

/-! ### Market regime (source lines 102-129) -/

/-- The 20-day rate of change used by the regime classifier:
`close/close[-21] - 1` when at least 21 bars exist, else `0.0`. -/
def roc20 (df : List Bar) : ℚ :=
  if 21 ≤ df.length then
    match lastQ (closes df), (closes df)[df.length - 21]? with
    | some c, some c21 => c / c21 - 1
    | _, _ => 0
  else 0

/-- The regime composite score: four independent +-1 contributions
(close>sma200, ema20>ema50, rsi14>=50, roc20>=0), source lines 111-115. -/
def market_regime_score (df : List Bar) : ℤ :=
  (if gtB (lastQ (closes df)) (lastOQ (sma (closes df) 200)) then 1 else -1)
    + (if gtB (lastQ (ema (closes df) 20)) (lastQ (ema (closes df) 50)) then 1 else -1)
    + (if (lastOQ (rsi (closes df) 14)).any (fun r => decide ((50 : ℚ) ≤ r)) then 1 else -1)
    + (if 0 ≤ roc20 df then 1 else -1)

/-- The regime bias: `score >= 2` bullish, `score <= -2` bearish, else
neutral (source lines 117-119). -/
def market_regime_bias (df : List Bar) : String :=
  if 2 ≤ market_regime_score df then "bullish"
  else if market_regime_score df ≤ -2 then "bearish"
  else "neutral"

/-! ### Weekly resampling (source lines 250-254) -/

/-- The `W-FRI` weekly bucket of a day number.  Day 0 = 1970-01-01 is a
Thursday, so days 2..8 (Saturday..Friday) form bucket 1, and in general
a week runs Saturday to Friday. -/
def weekOf (d : ℕ) : ℕ := (d + 5) / 7

/-- The weekly bucket labels present in a series, in order of first
appearance, without duplicates (the nonempty buckets of the resampler;
empty buckets produce all-NaN rows which `dropna()` removes). -/
def weekLabels (l : List ℕ) : List ℕ :=
  l.foldl (fun acc w => if w ∈ acc then acc else acc ++ [w]) []

/-- Aggregate one weekly bucket: `open='first', high='max', low='min',
close='last', volume='sum'`.  The `date` of the output bar is the
bucket label. -/
def aggWeek (w : ℕ) (b : Bar) (bs : List Bar) : Bar :=
  { date := w
    open_ := b.open_
    high := (bs.map Bar.high).foldl max b.high
    low := (bs.map Bar.low).foldl min b.low
    close := (bs.getLastD b).close
    volume := ((b :: bs).map Bar.volume).sum }

/-- `resample_weekly(df)`: group by `W-FRI` bucket, aggregate
open/high/low/close/volume, drop empty buckets. -/
def resample_weekly (df : List Bar) : List Bar :=
  (weekLabels (df.map fun b => weekOf b.date)).filterMap fun w =>
    match df.filter (fun b => weekOf b.date = w) with
    | [] => none
    | b :: bs => some (aggWeek w b bs)

/-! ### Long-term weekly strategy (source lines 256-291) -/

/-- Builds the weekly plan from the last weekly close, sma40, rsi14w
and atr14w (source lines 279-291). -/
def wklBuild (close sma40 rsi14w atr14w : ℚ) : Plan :=
  let entry := close
  let stop := entry - LT_STOP_ATR_MULT * atr14w
  let target := entry + LT_TARGET_ATR_MULT * atr14w
  let rr := (target - entry) / max (entry - stop) epsRR
  let dist := (close - sma40) / max epsRR sma40
  let momq := (rsi14w - 50) / 50
  { strategy := "WeeklyTrendLong", active := true, entry := entry,
    stop := stop, target := target, rr := rr,
    reason := "Weekly uptrend. Position trade.", direction := "bullish",
    horizon := "long",
    score := rr * (1 + (7 / 10) * max 0 dist + (1 / 2) * max 0 momq) }

/-- `invest_trend_weekly_long` before rounding: resample to weekly,
require 60 weekly bars, decline on missing sma40/ema10/ema30/rsi14w/atr14w,
admission `close > sma40 and ema10 > ema30 and rsi14w >= 55`. -/
def invest_trend_weekly_long_core (df_daily : List Bar) : Option Plan :=
  if (resample_weekly df_daily).length < LT_MIN_WEEKS then none
  else
    match lastQ (closes (resample_weekly df_daily)),
        lastOQ (sma (closes (resample_weekly df_daily)) LT_SMA_WEEKS),
        lastQ (ema (closes (resample_weekly df_daily)) 10),
        lastQ (ema (closes (resample_weekly df_daily)) 30),
        lastOQ (rsi (closes (resample_weekly df_daily)) 14),
        lastOQ (atr (resample_weekly df_daily) 14) with
    | some close, some sma40, some ema10, some ema30, some rsi14w, some atr14w =>
      if sma40 < close ∧ ema30 < ema10 ∧ LT_RSI_MIN ≤ rsi14w then
        some (wklBuild close sma40 rsi14w atr14w)
      else none
    | _, _, _, _, _, _ => none

/-- `invest_trend_weekly_long(df)` as emitted. -/
def invest_trend_weekly_long (df_daily : List Bar) : Option Plan :=
  (invest_trend_weekly_long_core df_daily).map plan_dict

/-! ### Momentum fallback (source lines 294-313) -/

/-- Builds the bullish momentum plan (source lines 303-308): entry,
stop and target are rounded before the ratio is formed. -/
def momUpBuild (close atr14 : ℚ) : Plan :=
  let entry := round2 close
  let stop := round2 (entry - RISK_MULT * atr14)
  let target := round2 (entry + REWARD_MULT * atr14)
  let rr := (target - entry) / max (entry - stop) epsRR
  { strategy := "MomentumInfo", active := true, entry := entry,
    stop := stop, target := target, rr := rr,
    reason := "20d momentum up.", direction := "bullish",
    horizon := "short", score := rr }

/-- Builds the bearish momentum plan (source lines 310-313). -/
def momDownBuild (close atr14 : ℚ) : Plan :=
  let entry := round2 close
  let stop := round2 (entry + RISK_MULT * atr14)
  let target := round2 (entry - REWARD_MULT * atr14)
  let rr := (entry - target) / max (stop - entry) epsRR
  { strategy := "MomentumInfo", active := true, entry := entry,
    stop := stop, target := target, rr := rr,
    reason := "20d momentum down.", direction := "bearish",
    horizon := "short", score := rr }

/-- `momentum_info_plan(df)`: declines when atr14 is missing or fewer
than 21 bars exist; otherwise a 20-day rate-of-change decides the
direction, and entry/stop/target are rounded before `rr` is computed.
The source rounds these levels itself, so core and emitted numeric
fields coincide here. -/
def momentum_info_plan_core (df : List Bar) : Option Plan :=
  match lastOQ (atr df 14) with
  | none => none
  | some atr14 =>
    if df.length < 21 then none
    else
      match lastQ (closes df), (closes df)[df.length - 21]? with
      | some close, some c21 =>
        if 0 ≤ close / c21 - 1 then some (momUpBuild close atr14)
        else some (momDownBuild close atr14)
      | _, _ => none

/-- `momentum_info_plan(df)` as emitted. -/
def momentum_info_plan (df : List Bar) : Option Plan :=
  (momentum_info_plan_core df).map plan_dict

/-! ### Selection and ranking (source lines 357-361) -/

/-- An idea record: `{symbol, plan}`. -/
structure Idea where
  symbol : String
  plan : Plan
deriving DecidableEq

/-- The sort key of `r`: `(r["plan"]["_score"], r["plan"]["rr"])`. -/
def rank_key (r : Idea) : ℚ × ℚ := (r.plan.score, r.plan.rr)

/-- Descending lexicographic comparison of sort keys — the order
produced by Python's `sort(key=..., reverse=True)`. -/
def lexGE (a b : ℚ × ℚ) : Prop := b.1 < a.1 ∨ (a.1 = b.1 ∧ b.2 ≤ a.2)

instance (a b : ℚ × ℚ) : Decidable (lexGE a b) := by
  unfold lexGE; infer_instance

/-- The Boolean comparison handed to the (stable) sort. -/
def idea_le (a b : Idea) : Bool := decide (lexGE (rank_key a) (rank_key b))

/-- `results.sort(key=..., reverse=True); results[:cap]`: stable sort
descending by `(score, rr)`, then truncate to the horizon cap. -/
def select_ideas (results : List Idea) (cap : ℕ) : List Idea :=
  (results.mergeSort idea_le).take cap

/-! ### Concrete input series used by witnesses and counterexamples -/

/-- A bar with the given high/low/close (date 0, open = close,
volume 0; those fields are unread by the daily strategies). -/
def mkBar (h l c : ℚ) : Bar :=
  { date := 0, open_ := c, high := h, low := l, close := c, volume := 0 }

/-- Last 14 bars of the trend-pullback example series: a zig-zag rise
from 90 tuned so that at the last bar rsi14 = 60 exactly, atr14 = 2
exactly (every true range in the window is 2), the last close is 100
and the last high is 101. -/
def trendTail : List Bar := [
  mkBar (91) (89) ((50577671969836873 : ℚ) / 465961702449620),
  mkBar ((51043633672286493 : ℚ) / 465961702449620) ((50111710267387253 : ℚ) / 465961702449620) ((472 : ℚ) / 5),
  mkBar ((477 : ℚ) / 5) ((467 : ℚ) / 5) ((492 : ℚ) / 5),
  mkBar ((497 : ℚ) / 5) ((487 : ℚ) / 5) ((477 : ℚ) / 5),
  mkBar ((482 : ℚ) / 5) ((472 : ℚ) / 5) ((492 : ℚ) / 5),
  mkBar ((497 : ℚ) / 5) ((487 : ℚ) / 5) ((482 : ℚ) / 5),
  mkBar ((487 : ℚ) / 5) ((477 : ℚ) / 5) ((492 : ℚ) / 5),
  mkBar ((497 : ℚ) / 5) ((487 : ℚ) / 5) ((482 : ℚ) / 5),
  mkBar ((487 : ℚ) / 5) ((477 : ℚ) / 5) ((487 : ℚ) / 5),
  mkBar ((492 : ℚ) / 5) ((482 : ℚ) / 5) ((491 : ℚ) / 5),
  mkBar ((496 : ℚ) / 5) ((486 : ℚ) / 5) ((494 : ℚ) / 5),
  mkBar ((499 : ℚ) / 5) ((489 : ℚ) / 5) ((993 : ℚ) / 10),
  mkBar ((1003 : ℚ) / 10) ((983 : ℚ) / 10) ((997 : ℚ) / 10),
  mkBar (101) (99) (100)]

/-- A 200-bar daily series on which `strat_trend_pullback_long` admits
with close > sma200, ema20 > ema50, ema5 > ema20, rsi14 = 60,
atr14 = 2, last close 100 and last high 101 — the worked example of
the specification. -/
def exTrend : List Bar := List.replicate 186 (mkBar 90 90 90) ++ trendTail

/-- A 200-bar daily series on which `strat_mean_reversion_long` admits
(close 258.5 > sma200 = 198.33, rsi2 < 10 after a string of losses)
while the 5-bar SMA (258.4) sits below the entry, so the plan's target
is below its entry and its reward/risk ratio is negative. -/
def exMeanRev : List Bar :=
  List.replicate 100 (mkBar 100 100 100)
    ++ [mkBar 300 100 300]
    ++ List.replicate 88 (mkBar 300 300 300)
    ++ [mkBar 300 294 294, mkBar 294 288 288, mkBar 288 282 282,
        mkBar 282 276 276, mkBar 276 270 270, mkBar 270 264 264,
        mkBar 264 258 258, mkBar ((517 : ℚ) / 2) 258 ((517 : ℚ) / 2)]
    ++ List.replicate 3 (mkBar ((517 : ℚ) / 2) ((517 : ℚ) / 2) ((517 : ℚ) / 2))

/-- A 21-bar series with constant close 10 and true range 1/1000
everywhere: atr14 = 1/1000, so the momentum plan's rounded stop and
target both collapse onto the entry. -/
def exMom : List Bar := List.replicate 21 (mkBar ((10001 : ℚ) / 1000) 10 10)

/-- The unrounded plan the trend-pullback-long strategy produces on
the worked example series `exTrend`. -/
def exTrendPlan : Plan :=
  { strategy := "TrendPullbackLong", active := true, entry := (2021 : ℚ) / 20,
    stop := (1981 : ℚ) / 20, target := (2093 : ℚ) / 20, rr := (9 : ℚ) / 5,
    reason := "Uptrend, breakout of prior high.", direction := "bullish",
    horizon := "short", score := (189 : ℚ) / 50 }

/-- The scenario the claim asserts to be reachable: an input admitted
by a mean-reversion strategy whose last 5-bar SMA is missing (which
would exercise the ATR-multiple target fallback). -/
def mrFallbackReachable : Prop :=
  ∃ df p, (strat_mean_reversion_long_core df = some p ∨
    strat_mean_reversion_short_core df = some p) ∧
    lastOQ (sma (closes df) 5) = none

/-- The claimed shape of the reward/risk ratio. -/
def rrInvariant (entry stop target rr : ℚ) : Prop :=
  rr = |target - entry| / max |entry - stop| epsRR ∧ 0 ≤ rr

/-- Five concrete bars for the Monday..Friday of the week of days
4..8 (week bucket 1). -/
def exWeek : List Bar := [
  { date := 4, open_ := 10, high := 11, low := 9, close := 10, volume := 100 },
  { date := 5, open_ := 10, high := 12, low := 8, close := 11, volume := 100 },
  { date := 6, open_ := 11, high := 13, low := 7, close := 12, volume := 100 },
  { date := 7, open_ := 12, high := 14, low := 6, close := 13, volume := 100 },
  { date := 8, open_ := 13, high := 15, low := 5, close := 14, volume := 100 }]

/-! ### Basic facts about the series operators -/

lemma length_rollingMean (s : List ℚ) (n : ℕ) :
    (rollingMean s n).length = s.length := by
  simp [rollingMean]

lemma rollingMean_getElem? (s : List ℚ) (n i : ℕ) (h : i < s.length) :
    (rollingMean s n)[i]? =
      some (if n ≤ i + 1 ∧ 1 ≤ n
        then some (((s.take (i + 1)).drop (i + 1 - n)).sum / n) else none) := by
  simp [rollingMean, List.getElem?_map, List.getElem?_range h]

lemma join_some_eq {α : Type} (o : Option α) : (some o).join = o := rfl

lemma lastOQ_rollingMean_some (s : List ℚ) (n : ℕ) (v : ℚ)
    (h : lastOQ (rollingMean s n) = some v) :
    n ≤ s.length ∧ 1 ≤ n ∧ v = (s.drop (s.length - n)).sum / n := by
  by_cases hs : s = []
  · subst hs; simp [lastOQ, rollingMean] at h
  · have hlen : 0 < s.length := List.length_pos.mpr hs
    have hid : s.length - 1 < s.length := by omega
    rw [lastOQ, List.getLast?_eq_getElem?, length_rollingMean,
      rollingMean_getElem? _ _ _ hid, join_some_eq] at h
    have hsucc : s.length - 1 + 1 = s.length := by omega
    rw [hsucc] at h
    split at h
    · rename_i hcond
      rw [List.take_length] at h
      exact ⟨hcond.1, hcond.2, (Option.some_inj.mp h).symm⟩
    · simp at h

lemma trGo_nonneg (bs : List Bar) (pc : ℚ) (x : ℚ) (hx : x ∈ trGo pc bs) : 0 ≤ x := by
  induction bs generalizing pc with
  | nil => simp [trGo] at hx
  | cons b bs ih =>
    rw [trGo, List.mem_cons] at hx
    rcases hx with rfl | hx
    · exact le_trans (abs_nonneg _) (le_trans (le_max_left _ _) (le_max_right _ _))
    · exact ih b.close hx

lemma length_trueRange (df : List Bar) : (trueRange df).length = df.length := by
  cases df with
  | nil => rfl
  | cons b bs =>
    rw [trueRange, List.length_cons, List.length_cons]
    have : ∀ (l : List Bar) (pc : ℚ), (trGo pc l).length = l.length := by
      intro l
      induction l with
      | nil => intro pc; rfl
      | cons c cs ih => intro pc; rw [trGo, List.length_cons, List.length_cons, ih]
    rw [this]

lemma mem_drop_trueRange_nonneg (df : List Bar) (k : ℕ) (hk : 1 ≤ k) (x : ℚ)
    (hx : x ∈ (trueRange df).drop k) : 0 ≤ x := by
  cases df with
  | nil => simp [trueRange] at hx
  | cons b bs =>
    rw [trueRange] at hx
    rcases Nat.exists_eq_add_of_le hk with ⟨m, rfl⟩
    rw [Nat.add_comm, List.drop_succ_cons] at hx
    exact trGo_nonneg bs b.close x (List.drop_subset m _ hx)

/-- The key structural fact behind nonnegative reward/risk values: on a
series of at least `n + 1` bars, a defined last atr value over window
`n` only averages true ranges of bars with a previous close, which are
nonnegative. -/
lemma atr_last_nonneg (df : List Bar) (n : ℕ) (a : ℚ) (hlen : n + 1 ≤ df.length)
    (h : lastOQ (atr df n) = some a) : 0 ≤ a := by
  obtain ⟨hn, -, hv⟩ := lastOQ_rollingMean_some _ _ _ h
  rw [length_trueRange] at hn
  have hnn : ∀ x ∈ (trueRange df).drop ((trueRange df).length - n), 0 ≤ x := by
    intro x hx
    refine mem_drop_trueRange_nonneg df _ ?_ x hx
    rw [length_trueRange]; omega
  subst hv
  exact div_nonneg (List.sum_nonneg hnn) (by positivity)

/-! ### Facts about the output rounding -/

lemma rhe_ge_floor (q : ℚ) : ⌊q⌋ ≤ rhe q := by
  unfold rhe; split_ifs <;> omega

lemma rhe_le_floor_add_one (q : ℚ) : rhe q ≤ ⌊q⌋ + 1 := by
  unfold rhe; split_ifs <;> omega

lemma rhe_intCast (n : ℤ) : rhe (n : ℚ) = n := by
  unfold rhe
  rw [Int.fract_intCast, Int.floor_intCast]
  norm_num

lemma rhe_mono {x y : ℚ} (h : x ≤ y) : rhe x ≤ rhe y := by
  have hf : ⌊x⌋ ≤ ⌊y⌋ := Int.floor_le_floor h
  rcases lt_or_eq_of_le hf with hlt | heq
  · calc rhe x ≤ ⌊x⌋ + 1 := rhe_le_floor_add_one x
      _ ≤ ⌊y⌋ := hlt
      _ ≤ rhe y := rhe_ge_floor y
  · have hfr : Int.fract x ≤ Int.fract y := by
      rw [Int.fract, Int.fract, heq]
      linarith
    unfold rhe
    rw [heq]
    split_ifs <;> first | omega | linarith

lemma round2_mono {x y : ℚ} (h : x ≤ y) : round2 x ≤ round2 y := by
  unfold round2
  have : rhe (100 * x) ≤ rhe (100 * y) := rhe_mono (by linarith)
  have hc : ((rhe (100 * x) : ℚ)) ≤ ((rhe (100 * y) : ℚ)) := Int.cast_le.mpr this
  linarith

lemma round2_round2 (x : ℚ) : round2 (round2 x) = round2 x := by
  unfold round2
  have h100 : (100 : ℚ) * ((rhe (100 * x) : ℚ) / 100) = (rhe (100 * x) : ℚ) := by ring
  rw [h100, rhe_intCast]

/-! ### Inversion lemmas: what a produced plan tells us about the frame -/

lemma tpl_core_inv (df : List Bar) (p : Plan)
    (h : strat_trend_pullback_long_core df = some p) :
    ∃ hi a, (df.map Bar.high).getLast? = some hi ∧ lastOQ (atr df 14) = some a ∧
      200 ≤ df.length ∧ p = tplBuild hi a (quality_long df) := by
  unfold strat_trend_pullback_long_core at h
  split at h
  · rename_i ema5 ema20 ema50 sma200 rsi14 atr14 heq1 heq2 heq3 heq4 heq5 heq6
    split at h
    · split at h
      · rename_i hi heqh
        refine ⟨hi, atr14, heqh, heq6, ?_, (Option.some_inj.mp h).symm⟩
        obtain ⟨hlen, -, -⟩ := lastOQ_rollingMean_some _ _ _ heq4
        simpa [closes] using hlen
      · simp at h
    · simp at h
  · simp at h

lemma tps_core_inv (df : List Bar) (p : Plan)
    (h : strat_trend_pullback_short_core df = some p) :
    ∃ lo a, (df.map Bar.low).getLast? = some lo ∧ lastOQ (atr df 14) = some a ∧
      200 ≤ df.length ∧ p = tpsBuild lo a (quality_short df) := by
  unfold strat_trend_pullback_short_core at h
  split at h
  · rename_i ema5 ema20 ema50 sma200 rsi14 atr14 heq1 heq2 heq3 heq4 heq5 heq6
    split at h
    · split at h
      · rename_i lo heql
        refine ⟨lo, atr14, heql, heq6, ?_, (Option.some_inj.mp h).symm⟩
        obtain ⟨hlen, -, -⟩ := lastOQ_rollingMean_some _ _ _ heq4
        simpa [closes] using hlen
      · simp at h
    · simp at h
  · simp at h

lemma mrl_core_inv (df : List Bar) (p : Plan)
    (h : strat_mean_reversion_long_core df = some p) :
    ∃ close a s5, lastQ (closes df) = some close ∧
      lastOQ (sma (closes df) 5) = some s5 ∧ lastOQ (atr df 14) = some a ∧
      200 ≤ df.length ∧ p = mrlBuild close (some s5) a (quality_long df) := by
  unfold strat_mean_reversion_long_core at h
  split at h
  · rename_i close sma200 rsi2 atr14 heq1 heq2 heq3 heq4
    split at h
    · simp at h
    · rename_i hs5
      rw [Option.isNone_iff_eq_none] at hs5
      obtain ⟨s5, hs5'⟩ := Option.ne_none_iff_exists'.mp hs5
      split at h
      · refine ⟨close, atr14, s5, heq1, hs5', heq4, ?_, ?_⟩
        · obtain ⟨hlen, -, -⟩ := lastOQ_rollingMean_some _ _ _ heq2
          have : MR_TREND_MA = 200 := rfl
          rw [this] at hlen
          simpa [closes] using hlen
        · rw [hs5'] at h
          exact (Option.some_inj.mp h).symm
      · simp at h
  · simp at h

lemma mrs_core_inv (df : List Bar) (p : Plan)
    (h : strat_mean_reversion_short_core df = some p) :
    ∃ close a s5, lastQ (closes df) = some close ∧
      lastOQ (sma (closes df) 5) = some s5 ∧ lastOQ (atr df 14) = some a ∧
      200 ≤ df.length ∧ p = mrsBuild close (some s5) a (quality_short df) := by
  unfold strat_mean_reversion_short_core at h
  split at h
  · rename_i close sma200 rsi2 atr14 heq1 heq2 heq3 heq4
    split at h
    · simp at h
    · rename_i hs5
      rw [Option.isNone_iff_eq_none] at hs5
      obtain ⟨s5, hs5'⟩ := Option.ne_none_iff_exists'.mp hs5
      split at h
      · refine ⟨close, atr14, s5, heq1, hs5', heq4, ?_, ?_⟩
        · obtain ⟨hlen, -, -⟩ := lastOQ_rollingMean_some _ _ _ heq2
          have : MR_TREND_MA = 200 := rfl
          rw [this] at hlen
          simpa [closes] using hlen
        · rw [hs5'] at h
          exact (Option.some_inj.mp h).symm
      · simp at h
  · simp at h

lemma wkl_core_inv (df : List Bar) (p : Plan)
    (h : invest_trend_weekly_long_core df = some p) :
    ∃ c s40 r a, lastQ (closes (resample_weekly df)) = some c ∧
      lastOQ (sma (closes (resample_weekly df)) LT_SMA_WEEKS) = some s40 ∧
      lastOQ (rsi (closes (resample_weekly df)) 14) = some r ∧
      lastOQ (atr (resample_weekly df) 14) = some a ∧
      LT_MIN_WEEKS ≤ (resample_weekly df).length ∧ p = wklBuild c s40 r a := by
  unfold invest_trend_weekly_long_core at h
  split at h
  · simp at h
  · rename_i hlen
    split at h
    · rename_i c s40 e10 e30 r a heq1 heq2 heq3 heq4 heq5 heq6
      split at h
      · exact ⟨c, s40, r, a, heq1, heq2, heq5, heq6, by omega,
          (Option.some_inj.mp h).symm⟩
      · simp at h
    · simp at h

lemma mom_core_inv (df : List Bar) (p : Plan)
    (h : momentum_info_plan_core df = some p) :
    ∃ a c, lastOQ (atr df 14) = some a ∧ 21 ≤ df.length ∧
      lastQ (closes df) = some c ∧
      (p = momUpBuild c a ∨ p = momDownBuild c a) := by
  unfold momentum_info_plan_core at h
  split at h
  · simp at h
  · rename_i a heqa
    split at h
    · simp at h
    · rename_i hlen
      split at h
      · rename_i c c21 heqc heqc21
        split at h
        · exact ⟨a, c, heqa, by omega, heqc, Or.inl (Option.some_inj.mp h).symm⟩
        · exact ⟨a, c, heqa, by omega, heqc, Or.inr (Option.some_inj.mp h).symm⟩
      · simp at h

lemma lexGE_trans (a b c : ℚ × ℚ) (hab : lexGE a b) (hbc : lexGE b c) : lexGE a c := by
  unfold lexGE at *
  rcases hab with h1 | ⟨h1, h2⟩ <;> rcases hbc with h3 | ⟨h3, h4⟩
  · exact Or.inl (lt_trans h3 h1)
  · exact Or.inl (h3 ▸ h1)
  · exact Or.inl (h1 ▸ h3)
  · exact Or.inr ⟨h1.trans h3, le_trans h4 h2⟩

lemma lexGE_total (a b : ℚ × ℚ) : lexGE a b ∨ lexGE b a := by
  unfold lexGE
  rcases lt_trichotomy a.1 b.1 with h | h | h
  · exact Or.inr (Or.inl h)
  · rcases le_total b.2 a.2 with h2 | h2
    · exact Or.inl (Or.inr ⟨h, h2⟩)
    · exact Or.inr (Or.inr ⟨h.symm, h2⟩)
  · exact Or.inl (Or.inl h)

lemma idea_le_trans (a b c : Idea) (hab : idea_le a b = true) (hbc : idea_le b c = true) :
    idea_le a c = true := by
  unfold idea_le at *
  rw [decide_eq_true_iff] at *
  exact lexGE_trans _ _ _ hab hbc

lemma idea_le_total (a b : Idea) : (idea_le a b || idea_le b a) = true := by
  unfold idea_le
  rcases lexGE_total (rank_key a) (rank_key b) with h | h <;> simp [h]

lemma select_ideas_sorted (l : List Idea) (cap : ℕ) :
    List.Pairwise (fun a b => lexGE (rank_key a) (rank_key b)) (select_ideas l cap) := by
  have hs := @List.sorted_mergeSort Idea idea_le idea_le_trans idea_le_total l
  have hp : List.Pairwise (fun a b => lexGE (rank_key a) (rank_key b)) (l.mergeSort idea_le) := by
    refine hs.imp ?_
    intro a b hab
    exact decide_eq_true_iff.mp hab
  exact List.Pairwise.sublist (List.take_sublist cap _) hp

/-- C4: the selection engine emits at most 12 short-horizon and 8
long-horizon ideas, and within each horizon the emitted sequence is
non-increasing in the lexicographic key (ranking score, reward/risk). -/
theorem C4_selection_cap_sorted (shorts longs : List Idea) :
    (select_ideas shorts MAX_SHORT_IDEAS).length ≤ 12 ∧
    List.Pairwise (fun a b => lexGE (rank_key a) (rank_key b))
      (select_ideas shorts MAX_SHORT_IDEAS) ∧
    (select_ideas longs MAX_LONG_IDEAS).length ≤ 8 ∧
    List.Pairwise (fun a b => lexGE (rank_key a) (rank_key b))
      (select_ideas longs MAX_LONG_IDEAS) := by
  refine ⟨?_, select_ideas_sorted _ _, ?_, select_ideas_sorted _ _⟩
  · unfold select_ideas
    rw [List.length_take]
    exact le_trans (min_le_left _ _) (le_refl _)
  · unfold select_ideas
    rw [List.length_take]
    exact le_trans (min_le_left _ _) (le_refl _)

lemma ifpm1 (b : Prop) [Decidable b] :
    (if b then (1 : ℤ) else -1) = 1 ∨ (if b then (1 : ℤ) else -1) = -1 := by
  split_ifs <;> simp

lemma market_regime_score_cases (df : List Bar) :
    market_regime_score df = -4 ∨ market_regime_score df = -2 ∨
    market_regime_score df = 0 ∨ market_regime_score df = 2 ∨
    market_regime_score df = 4 := by
  unfold market_regime_score
  have h1 := ifpm1 (gtB (lastQ (closes df)) (lastOQ (sma (closes df) 200)) = true)
  have h2 := ifpm1 (gtB (lastQ (ema (closes df) 20)) (lastQ (ema (closes df) 50)) = true)
  have h3 := ifpm1 (Option.any (fun r => decide ((50 : ℚ) ≤ r)) (lastOQ (rsi (closes df) 14)) = true)
  have h4 := ifpm1 (0 ≤ roc20 df)
  rcases h1 with h1 | h1 <;> rcases h2 with h2 | h2 <;> rcases h3 with h3 | h3 <;>
    rcases h4 with h4 | h4 <;> rw [h1, h2, h3, h4] <;> norm_num

/-- C10: the market-regime composite score is a sum of exactly four
+-1 contributions, hence always one of -4, -2, 0, 2, 4 (odd values
cannot occur), and the bias is neutral exactly when the score is 0. -/
theorem C10_regime_score (df : List Bar) :
    (market_regime_score df = -4 ∨ market_regime_score df = -2 ∨
      market_regime_score df = 0 ∨ market_regime_score df = 2 ∨
      market_regime_score df = 4) ∧
    (market_regime_bias df = "neutral" ↔ market_regime_score df = 0) := by
  refine ⟨market_regime_score_cases df, ?_⟩
  unfold market_regime_bias
  rcases market_regime_score_cases df with h | h | h | h | h <;> rw [h] <;> norm_num <;> decide

/-- C9: the liquidity gate rejects when the latest close is below the
minimum price; with a volume column it further rejects when the 20-bar
rolling average of close*volume at the last bar is missing or below
the minimum dollar volume; without a volume column (and with the price
check passing) it passes. -/
theorem C9_liquidity_gate (df : List Bar) (hv : Bool) :
    (∀ c, lastQ (closes df) = some c → c < MIN_PRICE → liquidity_ok df hv = false) ∧
    (lastOQ (rollingMean (df.map fun b => b.close * b.volume) 20) = none →
      ∀ c, lastQ (closes df) = some c → MIN_PRICE ≤ c → liquidity_ok df true = false) ∧
    (∀ d, lastOQ (rollingMean (df.map fun b => b.close * b.volume) 20) = some d →
      d < MIN_DOLLAR_VOL →
      ∀ c, lastQ (closes df) = some c → MIN_PRICE ≤ c → liquidity_ok df true = false) ∧
    (∀ c, lastQ (closes df) = some c → MIN_PRICE ≤ c → liquidity_ok df false = true) := by
  refine ⟨?_, ?_, ?_, ?_⟩
  · intro c hc hlt
    unfold liquidity_ok
    rw [hc]
    simp [hlt]
  · intro hnone c hc hge
    unfold liquidity_ok
    rw [hc, hnone]
    simp [not_lt.mpr hge]
  · intro d hd hlt c hc hge
    unfold liquidity_ok
    rw [hc, hd]
    simp [not_lt.mpr hge, not_le.mpr hlt]
  · intro c hc hge
    unfold liquidity_ok
    rw [hc]
    simp [not_lt.mpr hge]

/-- C9 witness: a one-bar frame without a volume column and latest
close 10 passes the gate. -/
theorem C9_liquidity_gate_witness :
    lastQ (closes [mkBar 10 10 10]) = some 10 ∧
    liquidity_ok [mkBar 10 10 10] false = true :=
  ⟨by with_unfolding_all rfl,
    (C9_liquidity_gate [mkBar 10 10 10] false).2.2.2 10
      (by with_unfolding_all rfl) (by norm_num [MIN_PRICE])⟩

/-! ### Facts about rsi -/

lemma rsi_eq (s : List ℚ) (n : ℕ) :
    rsi s n = List.zipWith (fun g l => l.map fun lv => 100 - 100 / (1 + g / lv))
      (ewmAlpha (1 / n) ((diffO s).map gainPart))
      ((ewmAlpha (1 / n) ((diffO s).map lossPart)).map
        fun x => if x = 0 then none else some x) := rfl

lemma ewmGo_nonneg (a : ℚ) (ha0 : 0 ≤ a) (ha1 : a ≤ 1) (l : List ℚ)
    (hl : ∀ x ∈ l, 0 ≤ x) (y : ℚ) (hy : 0 ≤ y) :
    ∀ z ∈ ewmGo a y l, 0 ≤ z := by
  induction l generalizing y with
  | nil => intro z hz; simp [ewmGo] at hz
  | cons x xs ih =>
    intro z hz
    have hx : 0 ≤ x := hl x (List.mem_cons_self x xs)
    have hy2 : 0 ≤ (1 - a) * y + a * x := by nlinarith
    rw [ewmGo, List.mem_cons] at hz
    rcases hz with rfl | hz
    · exact hy2
    · exact ih (fun t ht => hl t (List.mem_cons_of_mem x ht)) _ hy2 z hz

lemma ewmAlpha_nonneg (a : ℚ) (ha0 : 0 ≤ a) (ha1 : a ≤ 1) (l : List ℚ)
    (hl : ∀ x ∈ l, 0 ≤ x) : ∀ z ∈ ewmAlpha a l, 0 ≤ z := by
  cases l with
  | nil => intro z hz; simp [ewmAlpha] at hz
  | cons x xs =>
    intro z hz
    have hx : 0 ≤ x := hl x (List.mem_cons_self x xs)
    rw [ewmAlpha, List.mem_cons] at hz
    rcases hz with rfl | hz
    · exact hx
    · exact ewmGo_nonneg a ha0 ha1 xs
        (fun t ht => hl t (List.mem_cons_of_mem x ht)) x hx z hz

lemma length_ewmGo (a y : ℚ) (l : List ℚ) : (ewmGo a y l).length = l.length := by
  induction l generalizing y with
  | nil => rfl
  | cons x xs ih => rw [ewmGo, List.length_cons, List.length_cons, ih]

lemma length_ewmAlpha (a : ℚ) (l : List ℚ) : (ewmAlpha a l).length = l.length := by
  cases l with
  | nil => rfl
  | cons x xs => rw [ewmAlpha, List.length_cons, List.length_cons, length_ewmGo]

lemma alpha_inv_nat_bounds (n : ℕ) : 0 ≤ (1 : ℚ) / n ∧ (1 : ℚ) / n ≤ 1 := by
  constructor
  · positivity
  · rcases Nat.eq_zero_or_pos n with rfl | hn
    · norm_num
    · rw [div_le_one (by positivity)]
      exact_mod_cast hn

lemma gainPart_nonneg (d : Option ℚ) : 0 ≤ gainPart d := by
  unfold gainPart
  rcases d with - | x
  · exact le_refl 0
  · dsimp only
    split_ifs with h
    · exact le_of_lt h
    · exact le_refl 0

lemma lossPart_nonneg (d : Option ℚ) : 0 ≤ lossPart d := by
  unfold lossPart
  rcases d with - | x
  · exact le_refl 0
  · dsimp only
    split_ifs with h
    · linarith
    · exact le_refl 0

/-- C3 (amended): wherever `rsi` is defined its value lies in [0, 100];
but at a position where the smoothed average loss is zero (and in
particular where the average gain is positive), `rsi` is missing — the
code maps a zero average loss to `NaN`, not to 100. -/
theorem C3_rsi_range_and_zero_loss (s : List ℚ) (n : ℕ) :
    (∀ (i : ℕ) (v : ℚ), (rsi s n)[i]? = some (some v) → 0 ≤ v ∧ v ≤ 100) ∧
    (∀ (i : ℕ) (l : ℚ), (ewmAlpha (1 / n) ((diffO s).map lossPart))[i]? = some l →
      l = 0 → (rsi s n)[i]? = some none) := by
  obtain ⟨ha0, ha1⟩ := alpha_inv_nat_bounds n
  constructor
  · intro i v h
    rw [rsi_eq, List.getElem?_zipWith_eq_some] at h
    obtain ⟨g, o, hg, ho, hf⟩ := h
    rw [List.getElem?_map] at ho
    cases hrd : (ewmAlpha (1 / n) ((diffO s).map lossPart))[i]? with
    | none => rw [hrd] at ho; simp at ho
    | some lv =>
      rw [hrd] at ho
      have ho2 : (if lv = 0 then (none : Option ℚ) else some lv) = o := by
        simpa using ho
      by_cases hlv0 : lv = 0
      · rw [if_pos hlv0] at ho2
        rw [ho2.symm] at hf
        simp at hf
      · rw [if_neg hlv0] at ho2
        rw [ho2.symm] at hf
        have hf2 : 100 - 100 / (1 + g / lv) = v := by simpa using hf
        have hlvm : lv ∈ ewmAlpha (1 / n) ((diffO s).map lossPart) :=
          List.getElem?_mem hrd
        have hlvnn : 0 ≤ lv := ewmAlpha_nonneg _ ha0 ha1 _
          (fun x hx => by
            obtain ⟨d, -, rfl⟩ := List.mem_map.mp hx
            exact lossPart_nonneg d) lv hlvm
        have hlvpos : 0 < lv := lt_of_le_of_ne hlvnn (Ne.symm hlv0)
        have hgm : g ∈ ewmAlpha (1 / n) ((diffO s).map gainPart) :=
          List.getElem?_mem hg
        have hgnn : 0 ≤ g := ewmAlpha_nonneg _ ha0 ha1 _
          (fun x hx => by
            obtain ⟨d, -, rfl⟩ := List.mem_map.mp hx
            exact gainPart_nonneg d) g hgm
        have hrs : 0 ≤ g / lv := div_nonneg hgnn (le_of_lt hlvpos)
        have h1 : (0 : ℚ) < 1 + g / lv := by linarith
        have hle : 100 / (1 + g / lv) ≤ 100 := by
          rw [div_le_iff₀ h1]; nlinarith
        have hpos : 0 < 100 / (1 + g / lv) := by positivity
        constructor <;> [linarith [hf2]; linarith [hf2]]
  · intro i l hl hl0
    subst hl0
    have hiu : i < (ewmAlpha (1 / n) ((diffO s).map gainPart)).length := by
      have hi : i < (ewmAlpha (1 / n) ((diffO s).map lossPart)).length := by
        rcases List.getElem?_eq_some.mp hl with ⟨h, -⟩
        exact h
      rw [length_ewmAlpha, List.length_map] at hi ⊢
      exact hi
    cases hgu : (ewmAlpha (1 / n) ((diffO s).map gainPart))[i]? with
    | none =>
      rw [List.getElem?_eq_none_iff] at hgu
      omega
    | some g =>
      rw [rsi_eq, List.getElem?_zipWith, hgu, List.getElem?_map, hl]
      simp

/-- C3 witness: on the series [1, 2, 1] with n = 2 the last rsi value
is defined and equals 100/3, which lies in [0, 100]. -/
theorem C3_rsi_range_witness :
    (rsi [1, 2, 1] 2)[2]? = some (some ((100 : ℚ) / 3)) ∧
    ((0 : ℚ) ≤ 100 / 3 ∧ (100 : ℚ) / 3 ≤ 100) :=
  ⟨by with_unfolding_all rfl,
    (C3_rsi_range_and_zero_loss [1, 2, 1] 2).1 2 (100 / 3) (by with_unfolding_all rfl)⟩

/-- C3 counterexample: on the strictly increasing series [1, 2, 3]
with n = 14, at the last position the smoothed average loss is 0 and
the smoothed average gain is 27/196 > 0, yet `rsi` is missing there —
not the value 100 the claim requires. -/
theorem C3_rsi_zero_loss_cex :
    (ewmAlpha (1 / 14) ((diffO [1, 2, 3]).map lossPart))[2]? = some 0 ∧
    (ewmAlpha (1 / 14) ((diffO [1, 2, 3]).map gainPart))[2]? = some ((27 : ℚ) / 196) ∧
    (0 : ℚ) < 27 / 196 ∧
    (rsi [1, 2, 3] 14)[2]? = some none :=
  ⟨by with_unfolding_all rfl, by with_unfolding_all rfl, by norm_num,
    by with_unfolding_all rfl⟩

/-! ### Facts about atr -/

lemma trueRange_nonneg (bars : List Bar) (hwf : ∀ b ∈ bars, b.low ≤ b.high) :
    ∀ x ∈ trueRange bars, 0 ≤ x := by
  cases bars with
  | nil => intro x hx; simp [trueRange] at hx
  | cons b bs =>
    intro x hx
    rw [trueRange, List.mem_cons] at hx
    rcases hx with rfl | hx
    · have := hwf b (List.mem_cons_self b bs)
      linarith
    · exact trGo_nonneg bs b.close x hx

/-- C7 (amended): provided every bar has `low <= high`, every defined
atr value is nonnegative; the first entry of the true-range series is
always `high - low` of the first bar, and with window 1 the atr at the
very first bar equals `high - low`.  (With a window of 2 or more the
atr is missing, not defined, at the first bar, and a malformed bar
with `low > high` can make defined atr values negative.) -/
theorem C7_atr_nonneg_first_bar (bars : List Bar) (n : ℕ)
    (hwf : ∀ b ∈ bars, b.low ≤ b.high) :
    (∀ (i : ℕ) (v : ℚ), (atr bars n)[i]? = some (some v) → 0 ≤ v) ∧
    (∀ b bs, bars = b :: bs → (trueRange bars)[0]? = some (b.high - b.low) ∧
      (atr bars 1)[0]? = some (some (b.high - b.low))) := by
  constructor
  · intro i v h
    have hi : i < (rollingMean (trueRange bars) n).length := by
      rcases List.getElem?_eq_some.mp h with ⟨hlt, -⟩
      exact hlt
    rw [length_rollingMean] at hi
    unfold atr at h
    rw [rollingMean_getElem? _ _ _ hi] at h
    split at h
    · have hv : (((trueRange bars).take (i + 1)).drop (i + 1 - n)).sum / n = v := by
        simpa using h
      subst hv
      refine div_nonneg (List.sum_nonneg ?_) (by positivity)
      intro x hx
      exact trueRange_nonneg bars hwf x
        (List.take_subset _ _ (List.drop_subset _ _ hx))
    · simp at h
  · intro b bs hb
    subst hb
    constructor
    · rw [trueRange]
      simp
    · have h0 : 0 < (trueRange (b :: bs)).length := by
        rw [length_trueRange]
        simp
      unfold atr
      rw [rollingMean_getElem? _ _ _ h0]
      norm_num
      rw [trueRange]
      simp

/-- C7 witness: a single well-formed bar with high 2, low 1; with
window 1 the atr at the first bar is defined, equals high - low = 1,
and is nonnegative. -/
theorem C7_atr_witness :
    (atr [mkBar 2 1 1] 1)[0]? = some (some ((2 : ℚ) - 1)) ∧
    (0 : ℚ) ≤ (2 : ℚ) - 1 ∧
    (trueRange [mkBar 2 1 1])[0]? = some ((2 : ℚ) - 1) := by
  have hwf : ∀ b ∈ [mkBar 2 1 1], b.low ≤ b.high := by
    intro b hb
    rw [List.mem_singleton] at hb
    subst hb
    norm_num [mkBar]
  have h := C7_atr_nonneg_first_bar [mkBar 2 1 1] 1 hwf
  exact ⟨(h.2 (mkBar 2 1 1) [] rfl).2,
    h.1 0 ((2 : ℚ) - 1) (h.2 (mkBar 2 1 1) [] rfl).2,
    (h.2 (mkBar 2 1 1) [] rfl).1⟩

/-- C7 counterexample: on a one-bar series whose bar has high 1 and
low 2 (the data model does not rule this out), `atr(bars, 1)` is
defined at the first bar and equals -1 < 0, refuting the claim that
atr is nonnegative wherever defined on every bar series. -/
theorem C7_atr_negative_cex :
    (atr [mkBar 1 2 0] 1)[0]? = some (some ((-1 : ℚ))) ∧ ¬ ((0 : ℚ) ≤ -1) :=
  ⟨by with_unfolding_all rfl, by norm_num⟩

/-- C6 (amended): whenever either mean-reversion strategy emits a
plan, its (pre-rounding) target equals the last 5-bar SMA of close —
which is therefore always present on admission.  The ATR-multiple
fallback written in `mrLongTarget`/`mrShortTarget` is unreachable
because the admission check already declines when the SMA is missing. -/
theorem C6_mr_target_is_sma5 (df : List Bar) :
    (∀ t, (strat_mean_reversion_long_core df).map Plan.target = some t →
      lastOQ (sma (closes df) 5) = some t) ∧
    (∀ t, (strat_mean_reversion_short_core df).map Plan.target = some t →
      lastOQ (sma (closes df) 5) = some t) := by
  constructor
  · intro t ht
    obtain ⟨p, hp, hpt⟩ := Option.map_eq_some'.mp ht
    obtain ⟨c, a, s5, -, hs5, -, -, hbuild⟩ := mrl_core_inv df p hp
    subst hbuild
    have : (mrlBuild c (some s5) a (quality_long df)).target = s5 := rfl
    rw [this] at hpt
    rw [hpt] at hs5
    exact hs5
  · intro t ht
    obtain ⟨p, hp, hpt⟩ := Option.map_eq_some'.mp ht
    obtain ⟨c, a, s5, -, hs5, -, -, hbuild⟩ := mrs_core_inv df p hp
    subst hbuild
    have : (mrsBuild c (some s5) a (quality_short df)).target = s5 := rfl
    rw [this] at hpt
    rw [hpt] at hs5
    exact hs5

/-- C6 counterexample: no admitted mean-reversion input has a missing
5-bar SMA, so the fallback target branch is dead code and the claim's
"both branches are reachable" is false. -/
theorem C6_mr_fallback_unreachable_cex : ¬ mrFallbackReachable := by
  rintro ⟨df, p, hp | hp, hnone⟩
  · obtain ⟨c, a, s5, -, hs5, -⟩ := mrl_core_inv df p hp
    rw [hnone] at hs5
    exact Option.noConfusion hs5
  · obtain ⟨c, a, s5, -, hs5, -⟩ := mrs_core_inv df p hp
    rw [hnone] at hs5
    exact Option.noConfusion hs5

/-- C6 witness: on the concrete admitted mean-reversion input, the
emitted target recovers the last 5-bar SMA, 258.4. -/
theorem C6_mr_target_witness :
    lastOQ (sma (closes exMeanRev) 5) = some ((1292 : ℚ) / 5) :=
  (C6_mr_target_is_sma5 exMeanRev).1 ((1292 : ℚ) / 5) (by with_unfolding_all rfl)

/-- C1 (amended): for the two trend-pullback strategies and the weekly
long strategy, whenever admission holds and the ATR used is positive,
the computed pre-rounding levels are strictly ordered: bullish plans
have target > entry > stop and bearish plans have target < entry <
stop.  (The momentum fallback violates the ordering after its rounding
when the ATR is below the rounding quantum, and the mean-reversion
strategies do not bound their 5-SMA target relative to entry.) -/
theorem C1_ordering (df : List Bar) :
    (∀ p a, strat_trend_pullback_long_core df = some p →
      lastOQ (atr df 14) = some a → 0 < a →
      p.direction = "bullish" ∧ p.target > p.entry ∧ p.entry > p.stop) ∧
    (∀ p a, strat_trend_pullback_short_core df = some p →
      lastOQ (atr df 14) = some a → 0 < a →
      p.direction = "bearish" ∧ p.target < p.entry ∧ p.entry < p.stop) ∧
    (∀ p a, invest_trend_weekly_long_core df = some p →
      lastOQ (atr (resample_weekly df) 14) = some a → 0 < a →
      p.direction = "bullish" ∧ p.target > p.entry ∧ p.entry > p.stop) := by
  refine ⟨?_, ?_, ?_⟩
  · intro p a hp ha hpos
    obtain ⟨hi, a2, hhi, ha2, hlen, hbuild⟩ := tpl_core_inv df p hp
    have haa : a2 = a := by
      rw [ha] at ha2
      exact (Option.some_inj.mp ha2).symm
    subst haa
    subst hbuild
    have he : (tplBuild hi a2 (quality_long df)).entry = hi + 5 / 100 := rfl
    have hs : (tplBuild hi a2 (quality_long df)).stop =
      hi + 5 / 100 - RISK_MULT * a2 := rfl
    have ht : (tplBuild hi a2 (quality_long df)).target =
      hi + 5 / 100 + REWARD_MULT * a2 := rfl
    refine ⟨rfl, ?_, ?_⟩
    · rw [ht, he, REWARD_MULT]
      nlinarith
    · rw [he, hs, RISK_MULT]
      nlinarith
  · intro p a hp ha hpos
    obtain ⟨lo, a2, hlo, ha2, hlen, hbuild⟩ := tps_core_inv df p hp
    have haa : a2 = a := by
      rw [ha] at ha2
      exact (Option.some_inj.mp ha2).symm
    subst haa
    subst hbuild
    have he : (tpsBuild lo a2 (quality_short df)).entry = lo - 5 / 100 := rfl
    have hs : (tpsBuild lo a2 (quality_short df)).stop =
      lo - 5 / 100 + RISK_MULT * a2 := rfl
    have ht : (tpsBuild lo a2 (quality_short df)).target =
      lo - 5 / 100 - REWARD_MULT * a2 := rfl
    refine ⟨rfl, ?_, ?_⟩
    · rw [ht, he, REWARD_MULT]
      nlinarith
    · rw [he, hs, RISK_MULT]
      nlinarith
  · intro p a hp ha hpos
    obtain ⟨c, s40, r, a2, hc, hs40, hr, ha2, hlen, hbuild⟩ := wkl_core_inv df p hp
    have haa : a2 = a := by
      rw [ha] at ha2
      exact (Option.some_inj.mp ha2).symm
    subst haa
    subst hbuild
    have he : (wklBuild c s40 r a2).entry = c := rfl
    have hs : (wklBuild c s40 r a2).stop = c - LT_STOP_ATR_MULT * a2 := rfl
    have ht : (wklBuild c s40 r a2).target = c + LT_TARGET_ATR_MULT * a2 := rfl
    refine ⟨rfl, ?_, ?_⟩
    · rw [ht, he, LT_TARGET_ATR_MULT]
      nlinarith
    · rw [he, hs, LT_STOP_ATR_MULT]
      nlinarith

/-- C1 witness: on `exTrend` the trend-pullback-long strategy admits
with atr14 = 2 > 0, and the produced levels are strictly ordered. -/
theorem C1_ordering_witness :
    strat_trend_pullback_long_core exTrend = some exTrendPlan ∧
    lastOQ (atr exTrend 14) = some 2 ∧
    exTrendPlan.direction = "bullish" ∧ exTrendPlan.target > exTrendPlan.entry ∧
    exTrendPlan.entry > exTrendPlan.stop := by
  have h1 : strat_trend_pullback_long_core exTrend = some exTrendPlan := by
    with_unfolding_all rfl
  have h2 : lastOQ (atr exTrend 14) = some 2 := by with_unfolding_all rfl
  have h3 := (C1_ordering exTrend).1 exTrendPlan 2 h1 h2 (by norm_num)
  exact ⟨h1, h2, h3.1, h3.2.1, h3.2.2⟩

/-- C1 counterexample: on the 21-bar series `exMom` with atr14 =
1/1000, the momentum fallback admits and emits a bullish plan whose
rounded entry, stop and target all equal 10, so target > entry > stop
fails for a produced plan of an admitted input. -/
theorem C1_momentum_collapse_cex :
    (momentum_info_plan exMom).map (fun p => (p.direction, p.entry, p.stop, p.target)) =
      some ("bullish", (10 : ℚ), (10 : ℚ), (10 : ℚ)) ∧
    ¬ ((10 : ℚ) > 10 ∧ (10 : ℚ) > 10) :=
  ⟨by with_unfolding_all rfl, by norm_num⟩

/-! ### The reward/risk invariant -/

lemma epsRR_nonneg : (0 : ℚ) ≤ epsRR := by rw [epsRR]; norm_num

lemma max_epsRR_nonneg (x : ℚ) : (0 : ℚ) ≤ max x epsRR :=
  le_trans epsRR_nonneg (le_max_right x epsRR)

lemma tplBuild_fields (hi a q : ℚ) :
    (tplBuild hi a q).entry = hi + 5 / 100 ∧
    (tplBuild hi a q).stop = hi + 5 / 100 - RISK_MULT * a ∧
    (tplBuild hi a q).target = hi + 5 / 100 + REWARD_MULT * a ∧
    (tplBuild hi a q).rr = (hi + 5 / 100 + REWARD_MULT * a - (hi + 5 / 100)) /
      max (hi + 5 / 100 - (hi + 5 / 100 - RISK_MULT * a)) epsRR :=
  ⟨rfl, rfl, rfl, rfl⟩

lemma tpsBuild_fields (lo a q : ℚ) :
    (tpsBuild lo a q).entry = lo - 5 / 100 ∧
    (tpsBuild lo a q).stop = lo - 5 / 100 + RISK_MULT * a ∧
    (tpsBuild lo a q).target = lo - 5 / 100 - REWARD_MULT * a ∧
    (tpsBuild lo a q).rr = (lo - 5 / 100 - (lo - 5 / 100 - REWARD_MULT * a)) /
      max (lo - 5 / 100 + RISK_MULT * a - (lo - 5 / 100)) epsRR :=
  ⟨rfl, rfl, rfl, rfl⟩

lemma wklBuild_fields (c s40 r a : ℚ) :
    (wklBuild c s40 r a).entry = c ∧
    (wklBuild c s40 r a).stop = c - LT_STOP_ATR_MULT * a ∧
    (wklBuild c s40 r a).target = c + LT_TARGET_ATR_MULT * a ∧
    (wklBuild c s40 r a).rr = (c + LT_TARGET_ATR_MULT * a - c) /
      max (c - (c - LT_STOP_ATR_MULT * a)) epsRR :=
  ⟨rfl, rfl, rfl, rfl⟩

lemma momUpBuild_fields (c a : ℚ) :
    (momUpBuild c a).entry = round2 c ∧
    (momUpBuild c a).stop = round2 (round2 c - RISK_MULT * a) ∧
    (momUpBuild c a).target = round2 (round2 c + REWARD_MULT * a) ∧
    (momUpBuild c a).rr = (round2 (round2 c + REWARD_MULT * a) - round2 c) /
      max (round2 c - round2 (round2 c - RISK_MULT * a)) epsRR :=
  ⟨rfl, rfl, rfl, rfl⟩

lemma momDownBuild_fields (c a : ℚ) :
    (momDownBuild c a).entry = round2 c ∧
    (momDownBuild c a).stop = round2 (round2 c + RISK_MULT * a) ∧
    (momDownBuild c a).target = round2 (round2 c - REWARD_MULT * a) ∧
    (momDownBuild c a).rr = (round2 c - round2 (round2 c - REWARD_MULT * a)) /
      max (round2 (round2 c + RISK_MULT * a) - round2 c) epsRR :=
  ⟨rfl, rfl, rfl, rfl⟩

/-- C2 (amended): for the trend-pullback, weekly and momentum
strategies, the reward/risk ratio of a produced plan equals
`|target - entry| / max(|entry - stop|, 1e-6)` over the levels the
ratio is computed from (the pre-rounding levels for trend and weekly
plans, the rounded levels for momentum plans), and is nonnegative.
Mean-reversion plans are exempt: their 5-SMA target can sit on the
wrong side of entry, making the ratio negative. -/
theorem C2_rr_invariant (df : List Bar) :
    (∀ p, strat_trend_pullback_long_core df = some p →
      rrInvariant p.entry p.stop p.target p.rr) ∧
    (∀ p, strat_trend_pullback_short_core df = some p →
      rrInvariant p.entry p.stop p.target p.rr) ∧
    (∀ p, invest_trend_weekly_long_core df = some p →
      rrInvariant p.entry p.stop p.target p.rr) ∧
    (∀ p, momentum_info_plan_core df = some p →
      rrInvariant p.entry p.stop p.target p.rr) := by
  refine ⟨?_, ?_, ?_, ?_⟩
  · intro p hp
    obtain ⟨hi, a, hhi, ha, hlen, hbuild⟩ := tpl_core_inv df p hp
    have ha0 : 0 ≤ a := atr_last_nonneg df 14 a (by omega) ha
    subst hbuild
    obtain ⟨he, hs, ht, hr⟩ := tplBuild_fields hi a (quality_long df)
    have h1 : (0 : ℚ) ≤ hi + 5 / 100 + REWARD_MULT * a - (hi + 5 / 100) := by
      rw [REWARD_MULT]; nlinarith
    have h2 : (0 : ℚ) ≤ hi + 5 / 100 - (hi + 5 / 100 - RISK_MULT * a) := by
      rw [RISK_MULT]; nlinarith
    constructor
    · rw [hr, ht, he, hs, abs_of_nonneg h1, abs_of_nonneg h2]
    · rw [hr]
      exact div_nonneg h1 (max_epsRR_nonneg _)
  · intro p hp
    obtain ⟨lo, a, hlo, ha, hlen, hbuild⟩ := tps_core_inv df p hp
    have ha0 : 0 ≤ a := atr_last_nonneg df 14 a (by omega) ha
    subst hbuild
    obtain ⟨he, hs, ht, hr⟩ := tpsBuild_fields lo a (quality_short df)
    have h1 : lo - 5 / 100 - REWARD_MULT * a - (lo - 5 / 100) ≤ (0 : ℚ) := by
      rw [REWARD_MULT]; nlinarith
    have h2 : lo - 5 / 100 - (lo - 5 / 100 + RISK_MULT * a) ≤ (0 : ℚ) := by
      rw [RISK_MULT]; nlinarith
    constructor
    · rw [hr, ht, he, hs, abs_of_nonpos h1, abs_of_nonpos h2, neg_sub, neg_sub]
    · rw [hr]
      refine div_nonneg ?_ (max_epsRR_nonneg _)
      rw [REWARD_MULT]; nlinarith
  · intro p hp
    obtain ⟨c, s40, r, a, hc, hs40, hrw, ha, hlen, hbuild⟩ := wkl_core_inv df p hp
    have ha0 : 0 ≤ a := atr_last_nonneg (resample_weekly df) 14 a
      (by have h60 : LT_MIN_WEEKS = 60 := rfl; omega) ha
    subst hbuild
    obtain ⟨he, hs, ht, hr⟩ := wklBuild_fields c s40 r a
    have h1 : (0 : ℚ) ≤ c + LT_TARGET_ATR_MULT * a - c := by
      rw [LT_TARGET_ATR_MULT]; nlinarith
    have h2 : (0 : ℚ) ≤ c - (c - LT_STOP_ATR_MULT * a) := by
      rw [LT_STOP_ATR_MULT]; nlinarith
    constructor
    · rw [hr, ht, he, hs, abs_of_nonneg h1, abs_of_nonneg h2]
    · rw [hr]
      exact div_nonneg h1 (max_epsRR_nonneg _)
  · intro p hp
    obtain ⟨a, c, ha, hlen, hc, hp2⟩ := mom_core_inv df p hp
    have ha0 : 0 ≤ a := atr_last_nonneg df 14 a (by omega) ha
    have hkey : round2 (round2 c) = round2 c := round2_round2 c
    rcases hp2 with rfl | rfl
    · obtain ⟨he, hs, ht, hr⟩ := momUpBuild_fields c a
      have htge : round2 c ≤ round2 (round2 c + REWARD_MULT * a) := by
        calc round2 c = round2 (round2 c) := hkey.symm
          _ ≤ round2 (round2 c + REWARD_MULT * a) :=
            round2_mono (by rw [REWARD_MULT]; nlinarith)
      have hsle : round2 (round2 c - RISK_MULT * a) ≤ round2 c := by
        calc round2 (round2 c - RISK_MULT * a) ≤ round2 (round2 c) :=
            round2_mono (by rw [RISK_MULT]; nlinarith)
          _ = round2 c := hkey
      constructor
      · rw [hr, ht, he, hs, abs_of_nonneg (by linarith), abs_of_nonneg (by linarith)]
      · rw [hr]
        exact div_nonneg (by linarith) (max_epsRR_nonneg _)
    · obtain ⟨he, hs, ht, hr⟩ := momDownBuild_fields c a
      have htle : round2 (round2 c - REWARD_MULT * a) ≤ round2 c := by
        calc round2 (round2 c - REWARD_MULT * a) ≤ round2 (round2 c) :=
            round2_mono (by rw [REWARD_MULT]; nlinarith)
          _ = round2 c := hkey
      have hsge : round2 c ≤ round2 (round2 c + RISK_MULT * a) := by
        calc round2 c = round2 (round2 c) := hkey.symm
          _ ≤ round2 (round2 c + RISK_MULT * a) :=
            round2_mono (by rw [RISK_MULT]; nlinarith)
      constructor
      · rw [hr, ht, he, hs, abs_of_nonpos (by linarith), abs_of_nonpos (by linarith),
          neg_sub, neg_sub]
      · rw [hr]
        exact div_nonneg (by linarith) (max_epsRR_nonneg _)

/-- C2 witness: on `exTrend` the trend-pullback-long strategy produces
a plan whose ratio 9/5 satisfies the invariant. -/
theorem C2_rr_invariant_witness :
    strat_trend_pullback_long_core exTrend = some exTrendPlan ∧
    rrInvariant exTrendPlan.entry exTrendPlan.stop exTrendPlan.target exTrendPlan.rr :=
  ⟨by with_unfolding_all rfl,
    (C2_rr_invariant exTrend).1 exTrendPlan (by with_unfolding_all rfl)⟩

/-- C2 counterexample: on `exMeanRev` the mean-reversion-long strategy
emits a plan with entry 258.5, stop 255.46, target 258.4 and ratio
-0.03 < 0, which is negative and hence differs from the claimed
absolute-value form (that form is nonnegative). -/
theorem C2_mr_negative_rr_cex :
    (strat_mean_reversion_long exMeanRev).map
        (fun p => (p.entry, p.stop, p.target, p.rr)) =
      some ((517 : ℚ) / 2, (12773 : ℚ) / 50, (1292 : ℚ) / 5, (-3 : ℚ) / 100) ∧
    ((-3 : ℚ) / 100 < 0) ∧
    0 ≤ |(1292 : ℚ) / 5 - 517 / 2| / max |(517 : ℚ) / 2 - 12773 / 50| epsRR := by
  refine ⟨by with_unfolding_all rfl, by norm_num, ?_⟩
  exact div_nonneg (abs_nonneg _) (le_trans epsRR_nonneg (le_max_right _ _))

/-- C5 (amended): `strat_trend_pullback_long` declines whenever
ema5 <= ema20 at the last bar; and whenever it admits with last high
101 and atr14 = 2, the emitted plan has entry 101.05, stop 99.05,
target 104.65 (not 104.64 — the worked example's target is off by one
cent) and reward/risk ratio 1.80. -/
theorem C5_trend_pullback_example (df : List Bar) :
    (∀ e5 e20, lastQ (ema (closes df) 5) = some e5 →
      lastQ (ema (closes df) 20) = some e20 → e5 ≤ e20 →
      strat_trend_pullback_long_core df = none) ∧
    (∀ p, strat_trend_pullback_long_core df = some p →
      lastOQ (atr df 14) = some 2 → (df.map Bar.high).getLast? = some 101 →
      (plan_dict p).entry = (2021 : ℚ) / 20 ∧ (plan_dict p).stop = (1981 : ℚ) / 20 ∧
      (plan_dict p).target = (2093 : ℚ) / 20 ∧ (plan_dict p).rr = (9 : ℚ) / 5) := by
  constructor
  · intro e5 e20 he5 he20 hle
    unfold strat_trend_pullback_long_core
    split
    · rename_i ema5 ema20 ema50 sma200 rsi14 atr14 heq1 heq2 heq3 heq4 heq5 heq6
      rw [he5] at heq1
      rw [he20] at heq2
      have h5 : ema5 = e5 := (Option.some_inj.mp heq1).symm
      have h20 : ema20 = e20 := (Option.some_inj.mp heq2).symm
      subst h5
      subst h20
      rw [if_neg]
      intro hcon
      exact absurd hcon.1 (not_lt.mpr hle)
    · rfl
  · intro p hp ha2 hhi101
    obtain ⟨hi, a, hhi, ha, hlen, hbuild⟩ := tpl_core_inv df p hp
    rw [hhi101] at hhi
    rw [ha2] at ha
    have h1 : hi = 101 := (Option.some_inj.mp hhi).symm
    have h2 : a = 2 := (Option.some_inj.mp ha).symm
    subst h1
    subst h2
    subst hbuild
    refine ⟨?_, ?_, ?_, ?_⟩
    · show round2 ((101 : ℚ) + 5 / 100) = (2021 : ℚ) / 20
      with_unfolding_all rfl
    · show round2 ((101 : ℚ) + 5 / 100 - RISK_MULT * 2) = (1981 : ℚ) / 20
      with_unfolding_all rfl
    · show round2 ((101 : ℚ) + 5 / 100 + REWARD_MULT * 2) = (2093 : ℚ) / 20
      with_unfolding_all rfl
    · show round2 (((101 : ℚ) + 5 / 100 + REWARD_MULT * 2 - (101 + 5 / 100)) /
        max ((101 : ℚ) + 5 / 100 - (101 + 5 / 100 - RISK_MULT * 2)) epsRR) = (9 : ℚ) / 5
      with_unfolding_all rfl

/-- C5 witness: on the concrete series `exTrend` (which satisfies
close > sma200, ema20 > ema50, rsi14 = 60, atr14 = 2, last close 100,
last high 101) the strategy admits and the emitted plan carries the
amended values. -/
theorem C5_trend_pullback_example_witness :
    strat_trend_pullback_long_core exTrend = some exTrendPlan ∧
    (plan_dict exTrendPlan).entry = (2021 : ℚ) / 20 ∧
    (plan_dict exTrendPlan).stop = (1981 : ℚ) / 20 ∧
    (plan_dict exTrendPlan).target = (2093 : ℚ) / 20 ∧
    (plan_dict exTrendPlan).rr = (9 : ℚ) / 5 := by
  have h1 : strat_trend_pullback_long_core exTrend = some exTrendPlan := by
    with_unfolding_all rfl
  have h2 := (C5_trend_pullback_example exTrend).2 exTrendPlan h1
    (by with_unfolding_all rfl) (by with_unfolding_all rfl)
  exact ⟨h1, h2.1, h2.2.1, h2.2.2.1, h2.2.2.2⟩

/-- C5 counterexample: `exTrend` meets every condition of the worked
example — last close 100, last high 101, close above sma200, ema20
above ema50, rsi14 exactly 60, atr14 exactly 2, admission holds — yet
the emitted target is 104.65, not the 104.64 the claim states. -/
theorem C5_target_value_cex :
    lastQ (closes exTrend) = some 100 ∧
    (exTrend.map Bar.high).getLast? = some 101 ∧
    Option.any (fun s => decide (s < 100)) (lastOQ (sma (closes exTrend) 200)) = true ∧
    gtB (lastQ (ema (closes exTrend) 20)) (lastQ (ema (closes exTrend) 50)) = true ∧
    gtB (lastQ (ema (closes exTrend) 5)) (lastQ (ema (closes exTrend) 20)) = true ∧
    lastOQ (rsi (closes exTrend) 14) = some 60 ∧
    lastOQ (atr exTrend 14) = some 2 ∧
    (strat_trend_pullback_long exTrend).map Plan.target = some ((2093 : ℚ) / 20) ∧
    ¬ ((2093 : ℚ) / 20 = 2616 / 25) :=
  ⟨by with_unfolding_all rfl, by with_unfolding_all rfl, by with_unfolding_all rfl,
    by with_unfolding_all rfl, by with_unfolding_all rfl, by with_unfolding_all rfl,
    by with_unfolding_all rfl, by with_unfolding_all rfl, by norm_num⟩

/-! ### Facts about weekly resampling -/

lemma weekLabels_aux (l : List ℕ) (acc : List ℕ) (x : ℕ) :
    x ∈ l.foldl (fun acc w => if w ∈ acc then acc else acc ++ [w]) acc ↔
      x ∈ acc ∨ x ∈ l := by
  induction l generalizing acc with
  | nil => simp
  | cons w ws ih =>
    rw [List.foldl_cons, ih]
    by_cases hw : w ∈ acc
    · rw [if_pos hw]
      constructor
      · rintro (h | h)
        exacts [Or.inl h, Or.inr (List.mem_cons_of_mem w h)]
      · rintro (h | h)
        · exact Or.inl h
        · rw [List.mem_cons] at h
          rcases h with rfl | h
          exacts [Or.inl hw, Or.inr h]
    · rw [if_neg hw]
      constructor
      · rintro (h | h)
        · rw [List.mem_append, List.mem_singleton] at h
          rcases h with h | rfl
          exacts [Or.inl h, Or.inr (List.mem_cons_self _ _)]
        · exact Or.inr (List.mem_cons_of_mem _ h)
      · rintro (h | h)
        · exact Or.inl (List.mem_append.mpr (Or.inl h))
        · rw [List.mem_cons] at h
          rcases h with rfl | h
          · exact Or.inl (List.mem_append.mpr (Or.inr (List.mem_singleton_self _)))
          · exact Or.inr h

lemma weekLabels_mem (l : List ℕ) (x : ℕ) : x ∈ weekLabels l ↔ x ∈ l := by
  unfold weekLabels
  rw [weekLabels_aux]
  simp

lemma weekLabels_nodup_aux (l : List ℕ) (acc : List ℕ) (hacc : acc.Nodup) :
    (l.foldl (fun acc w => if w ∈ acc then acc else acc ++ [w]) acc).Nodup := by
  induction l generalizing acc with
  | nil => exact hacc
  | cons w ws ih =>
    rw [List.foldl_cons]
    apply ih
    by_cases hw : w ∈ acc
    · rw [if_pos hw]; exact hacc
    · rw [if_neg hw]
      rw [List.nodup_append]
      exact ⟨hacc, List.nodup_singleton w,
        fun a ha hb => hw (by rw [List.mem_singleton] at hb; exact hb ▸ ha)⟩

lemma weekLabels_nodup (l : List ℕ) : (weekLabels l).Nodup :=
  weekLabels_nodup_aux l [] List.nodup_nil

lemma filter_filterMap_key (L : List ℕ) (g : ℕ → Option Bar)
    (hkey : ∀ w' y, g w' = some y → y.date = w')
    (w : ℕ) (hnd : L.Nodup) (hmem : w ∈ L) (t : Bar) (hg : g w = some t) :
    (L.filterMap g).filter (fun x => x.date = w) = [t] := by
  induction L with
  | nil => simp at hmem
  | cons w' L' ih =>
    rw [List.filterMap_cons]
    rcases List.mem_cons.mp hmem with rfl | hmem'
    · rw [hg, List.filter_cons]
      have hw' : w ∉ L' := (List.nodup_cons.mp hnd).1
      have ht : t.date = w := hkey w t hg
      have hrest : (L'.filterMap g).filter (fun x => x.date = w) = [] := by
        rw [List.filter_eq_nil_iff]
        intro y hy
        obtain ⟨w2, hw2, hgw2⟩ := List.mem_filterMap.mp hy
        have hyd := hkey w2 y hgw2
        have hne : w2 ≠ w := fun hcon => hw' (hcon ▸ hw2)
        simp [hyd, hne]
      simp [ht, hrest]
    · have hne : w' ≠ w := by
        rintro rfl
        exact (List.nodup_cons.mp hnd).1 hmem'
      have ihh := ih (List.nodup_cons.mp hnd).2 hmem'
      cases hg' : g w' with
      | none => exact ihh
      | some y =>
        rw [List.filter_cons]
        have hyd : y.date ≠ w := by
          rw [hkey w' y hg']
          exact hne
        simp [hyd, ihh]

/-- C8: a daily series whose bars in `W-FRI` bucket `w` are exactly the
five consecutive weekdays Monday..Friday of one calendar week
resamples to exactly one weekly bar for that bucket, whose open is the
first daily open, high the maximum of the daily highs, low the minimum
of the daily lows, close the last daily close, and volume the sum of
the daily volumes. -/
theorem C8_weekly_resample (bars : List Bar) (w : ℕ) (b0 b1 b2 b3 b4 : Bar)
    (hfilter : bars.filter (fun b => weekOf b.date = w) = [b0, b1, b2, b3, b4])
    (hmon : b0.date % 7 = 4)
    (hd1 : b1.date = b0.date + 1) (hd2 : b2.date = b0.date + 2)
    (hd3 : b3.date = b0.date + 3) (hd4 : b4.date = b0.date + 4)
    (hw : w = weekOf b0.date) :
    (weekOf b1.date = w ∧ weekOf b2.date = w ∧ weekOf b3.date = w ∧
      weekOf b4.date = w) ∧
    (resample_weekly bars).filter (fun x => x.date = w) =
      [{ date := w, open_ := b0.open_,
         high := max (max (max (max b0.high b1.high) b2.high) b3.high) b4.high,
         low := min (min (min (min b0.low b1.low) b2.low) b3.low) b4.low,
         close := b4.close,
         volume := b0.volume + (b1.volume + (b2.volume + (b3.volume + (b4.volume + 0)))) }] := by
  refine ⟨⟨?_, ?_, ?_, ?_⟩, ?_⟩
  · rw [hd1, hw]; unfold weekOf; omega
  · rw [hd2, hw]; unfold weekOf; omega
  · rw [hd3, hw]; unfold weekOf; omega
  · rw [hd4, hw]; unfold weekOf; omega
  have hmem0 : b0 ∈ bars.filter (fun b => weekOf b.date = w) := by
    rw [hfilter]
    exact List.mem_cons_self _ _
  have hb0 := List.mem_filter.mp hmem0
  have hwmem : w ∈ weekLabels (bars.map fun b => weekOf b.date) := by
    rw [weekLabels_mem, List.mem_map]
    exact ⟨b0, hb0.1, of_decide_eq_true hb0.2⟩
  show ((weekLabels (bars.map fun b => weekOf b.date)).filterMap fun w' =>
    match bars.filter (fun b => weekOf b.date = w') with
    | [] => none
    | b :: bs => some (aggWeek w' b bs)).filter (fun x => x.date = w) = _
  apply filter_filterMap_key
  · intro w' y hy
    split at hy
    · exact Option.noConfusion hy
    · rw [(Option.some_inj.mp hy).symm]
      rfl
  · exact weekLabels_nodup _
  · exact hwmem
  · rw [hfilter]
    rfl

/-- C8 witness: the concrete week resamples to one weekly bar with
open 10, high 15, low 5, close 14 and volume 500. -/
theorem C8_weekly_resample_witness :
    (resample_weekly exWeek).filter (fun x => x.date = 1) =
      [{ date := 1, open_ := 10, high := 15, low := 5, close := 14, volume := 500 }] := by
  have h := C8_weekly_resample exWeek 1
    { date := 4, open_ := 10, high := 11, low := 9, close := 10, volume := 100 }
    { date := 5, open_ := 10, high := 12, low := 8, close := 11, volume := 100 }
    { date := 6, open_ := 11, high := 13, low := 7, close := 12, volume := 100 }
    { date := 7, open_ := 12, high := 14, low := 6, close := 13, volume := 100 }
    { date := 8, open_ := 13, high := 15, low := 5, close := 14, volume := 100 }
    (by with_unfolding_all rfl) rfl rfl rfl rfl rfl rfl
  rw [h.2]
  with_unfolding_all rfl
